import Mathlib

/-!
Verification of the Hi-AI / OP-AI MCP server's memory subsystem.

The development shallowly embeds, in Lean, the record store, relation
store and graph engine of `MemoryManager` together with the tool layer
(`saveMemory`, `recallMemory`), the usage-analytics report
(`generateGraphStats`), and the server's tool registry and dispatcher
(`index.ts`).  Time is modelled by a `Nat` counter passed explicitly to
every operation that the source stamps with `now`.
-/

/-- A stored memory record (row of the `memories` table):
`key PRIMARY KEY, value, category, timestamp, lastAccessed, priority`. -/
structure MemoryRecord where
  key : String
  value : String
  category : String
  timestamp : Nat
  lastAccessed : Nat
  priority : Int
deriving DecidableEq, Repr

/-- A directed typed edge (row of the `memory_relations` table):
`sourceKey, targetKey, relationType, strength, metadata, timestamp`,
with `UNIQUE(sourceKey, targetKey, relationType)`. -/
structure MemoryRelation where
  sourceKey : String
  targetKey : String
  relationType : String
  strength : Rat
  metadata : Option String
  timestamp : Nat
deriving DecidableEq, Repr

namespace MemoryManager

/-- Modelled from the spec: `MemoryManager.save` (the `MemoryManager.ts`
implementation is not among the available sources; only its callers and
the SQL schema are).  Upsert on `key`: on insert the record gets
`timestamp = lastAccessed = now` and `priority = 0`; on overwrite the
original `timestamp` is preserved while `value`/`category` are updated
and `lastAccessed` is refreshed. -/
def save (now : Nat) (k v c : String) (s : List MemoryRecord) : List MemoryRecord :=
  if s.any (fun r => r.key == k) then
    s.map (fun r =>
      if r.key == k then { r with value := v, category := c, lastAccessed := now } else r)
  else
    s ++ [{ key := k, value := v, category := c, timestamp := now, lastAccessed := now,
            priority := 0 }]

/-- Modelled from the spec: `MemoryManager.recall` (implementation not
among the available sources).  On hit it refreshes `lastAccessed` and
returns the record; on miss it returns the distinguished not-found
result `none` rather than throwing.  (Named `recallRecord` because
`recall` is a reserved word in this Lean environment.) -/
def recallRecord (now : Nat) (k : String) (s : List MemoryRecord) : Option MemoryRecord :=
  match s.find? (fun r => r.key == k) with
  | some r => some { r with lastAccessed := now }
  | none => none

end MemoryManager

/-- If no element of `l1` satisfies `p`, searching the concatenation
starts effectively at `l2`. -/
theorem find?_append_of_any_false {α : Type} {p : α → Bool} {l1 l2 : List α}
    (h : l1.any p = false) : (l1 ++ l2).find? p = l2.find? p := by
  induction l1 with
  | nil => rfl
  | cons a l ih =>
      simp only [List.any_cons, Bool.or_eq_false_iff] at h
      simpa [List.find?, h.1] using ih h.2

/-- Mapping by a function that does not change an element's `p`-status
commutes with `find?`. -/
theorem find?_map_of_pred_invariant {α : Type} {p : α → Bool} {f : α → α}
    (hf : ∀ x, p (f x) = p x) (l : List α) :
    (l.map f).find? p = (l.find? p).map f := by
  induction l with
  | nil => rfl
  | cons a l ih =>
      by_cases h : p a = true
      · simp [List.find?, hf a, h]
      · simp only [Bool.not_eq_true] at h
        simp [List.find?, hf a, h, ih]

/-- A successful `find?` forces `any` to be true. -/
theorem any_of_find?_eq_some {α : Type} {p : α → Bool} {l : List α} {a : α}
    (h : l.find? p = some a) : l.any p = true := by
  induction l with
  | nil => simp [List.find?] at h
  | cons b l ih =>
      by_cases hb : p b = true
      · simp [List.any_cons, hb]
      · simp only [Bool.not_eq_true] at hb
        simp only [List.find?, hb] at h
        simp [List.any_cons, hb, ih h]

/-- After `save now k v c s`, the record found at `k` carries the value
`v` and category `c` (whether the save inserted or overwrote). -/
theorem find?_save (s : List MemoryRecord) (k v c : String) (now : Nat) :
    ∃ r, (MemoryManager.save now k v c s).find? (fun r => r.key == k) = some r ∧
      r.value = v ∧ r.category = c := by
  unfold MemoryManager.save
  by_cases h : s.any (fun r => r.key == k) = true
  · simp only [h, if_true]
    have hf : ∀ x : MemoryRecord,
        ((if x.key == k
            then { x with value := v, category := c, lastAccessed := now }
            else x).key == k) = (x.key == k) := by
      intro x
      by_cases hx : x.key == k <;> simp [hx]
    rw [find?_map_of_pred_invariant hf]
    rcases hs : s.find? (fun r => r.key == k) with _ | r
    · rw [List.find?_eq_none] at hs
      rw [List.any_eq_true] at h
      rcases h with ⟨x, hx, hpx⟩
      exact absurd hpx (hs x hx)
    · have hr : (r.key == k) = true := by
        have h2 := List.find?_some hs
        simpa using h2
      have hk : r.key = k := by simpa using hr
      refine ⟨{ r with value := v, category := c, lastAccessed := now }, ?_, rfl, rfl⟩
      simp [hs, hk]
  · simp only [Bool.not_eq_true] at h
    simp only [h, Bool.false_eq_true, if_false]
    rw [find?_append_of_any_false h]
    refine ⟨{ key := k, value := v, category := c, timestamp := now, lastAccessed := now,
              priority := 0 }, ?_, rfl, rfl⟩
    simp [List.find?]

/-- Claim C1: round-trip of save then recall — for every key `k`, value
`v`, category `c` and prior store state, `save now1 k v c` followed by
`recall now2 k` returns a record whose `value` equals `v` and whose
`category` equals `c`. -/
theorem save_recall_roundtrip (s : List MemoryRecord) (k v c : String) (now1 now2 : Nat) :
    ∃ r, MemoryManager.recallRecord now2 k (MemoryManager.save now1 k v c s) = some r ∧
      r.value = v ∧ r.category = c := by
  obtain ⟨r0, hfind, hv, hc⟩ := find?_save s k v c now1
  refine ⟨{ r0 with lastAccessed := now2 }, ?_, hv, hc⟩
  unfold MemoryManager.recallRecord
  rw [hfind]

/-- Claim C5: re-saving an existing key preserves the record's original
creation `timestamp` while updating `value`, `category` and
`lastAccessed` (and leaving the `key` itself unchanged). -/
theorem resave_preserves_timestamp (s : List MemoryRecord) (k v2 c2 : String) (now : Nat)
    (r0 : MemoryRecord) (h : s.find? (fun r => r.key == k) = some r0) :
    ∃ r1, (MemoryManager.save now k v2 c2 s).find? (fun r => r.key == k) = some r1 ∧
      r1.timestamp = r0.timestamp ∧ r1.value = v2 ∧ r1.category = c2 ∧
      r1.lastAccessed = now ∧ r1.key = r0.key ∧ r1.priority = r0.priority := by
  have hk : r0.key = k := by
    have h2 := List.find?_some h
    simpa using h2
  refine ⟨{ r0 with value := v2, category := c2, lastAccessed := now },
    ?_, rfl, rfl, rfl, rfl, rfl, rfl⟩
  unfold MemoryManager.save
  rw [if_pos (any_of_find?_eq_some h)]
  have hf : ∀ x : MemoryRecord,
      ((if x.key == k
          then { x with value := v2, category := c2, lastAccessed := now }
          else x).key == k) = (x.key == k) := by
    intro x
    by_cases hx : x.key == k <;> simp [hx]
  rw [find?_map_of_pred_invariant hf, h]
  simp [hk]

/-- A concrete instance of the C5 theorem: re-saving the key `k` over a
one-record store keeps the creation timestamp `5`. -/
theorem resave_preserves_timestamp_witness :
    ∃ r1, (MemoryManager.save 9 "k" "v2" "code"
        [{ key := "k", value := "v1", category := "general", timestamp := 5,
           lastAccessed := 5, priority := 0 }]).find? (fun r => r.key == "k") = some r1 ∧
      r1.timestamp = 5 ∧ r1.value = "v2" ∧ r1.category = "code" ∧
      r1.lastAccessed = 9 ∧ r1.key = "k" ∧ r1.priority = 0 :=
  resave_preserves_timestamp
    [{ key := "k", value := "v1", category := "general", timestamp := 5,
       lastAccessed := 5, priority := 0 }] "k" "v2" "code" 9
    { key := "k", value := "v1", category := "general", timestamp := 5,
      lastAccessed := 5, priority := 0 } (by rfl)

namespace MemoryManager

/-- True when relation `r` carries the triple `(a, b, t)` of source key,
target key and relation type. -/
def tripleMatches (a b t : String) (r : MemoryRelation) : Bool :=
  r.sourceKey == a && r.targetKey == b && r.relationType == t

/-- Modelled from the spec: the pure upsert behind `MemoryManager.link`
(implementation not among the available sources; the schema declares
`UNIQUE(sourceKey, targetKey, relationType)`).  Re-linking an existing
triple updates its `strength`/`metadata` in place; a new triple is
appended with the creation timestamp `now`. -/
def linkUpsert (now : Nat) (a b t : String) (st : Rat) (md : Option String)
    (rels : List MemoryRelation) : List MemoryRelation :=
  if rels.any (tripleMatches a b t) then
    rels.map (fun r =>
      if tripleMatches a b t r then { r with strength := st, metadata := md } else r)
  else
    rels ++ [{ sourceKey := a, targetKey := b, relationType := t, strength := st,
               metadata := md, timestamp := now }]

/-- Modelled from the spec: `MemoryManager.link` — fails with
`InvalidReference` when either key is syntactically empty (referential
existence of the keys is not required), otherwise upserts on the unique
triple. -/
def link (now : Nat) (a b t : String) (st : Rat) (md : Option String)
    (rels : List MemoryRelation) : Except String (List MemoryRelation) :=
  if a.isEmpty || b.isEmpty then Except.error "InvalidReference"
  else Except.ok (linkUpsert now a b t st md rels)

/-- Number of stored edges carrying the triple `(a, b, t)`. -/
def countTriple (rels : List MemoryRelation) (a b t : String) : Nat :=
  (rels.filter (tripleMatches a b t)).length

/-- The store invariant declared by the schema: at most one edge per
`(sourceKey, targetKey, relationType)` triple. -/
def tripleUnique (rels : List MemoryRelation) : Prop :=
  ∀ a b t, countTriple rels a b t ≤ 1

end MemoryManager

/-- If no element satisfies `p`, the `p`-filter is empty. -/
theorem filter_eq_nil_of_any_false {α : Type} {p : α → Bool} {l : List α}
    (h : l.any p = false) : l.filter p = [] := by
  induction l with
  | nil => rfl
  | cons a l ih =>
      simp only [List.any_cons, Bool.or_eq_false_iff] at h
      simp [List.filter, h.1, ih h.2]

/-- If some element satisfies `p`, the `p`-filter is nonempty. -/
theorem one_le_length_filter_of_any_true {α : Type} {p : α → Bool} {l : List α}
    (h : l.any p = true) : 1 ≤ (l.filter p).length := by
  rw [List.any_eq_true] at h
  rcases h with ⟨x, hx, hpx⟩
  have : x ∈ l.filter p := List.mem_filter.mpr ⟨hx, hpx⟩
  exact List.length_pos.mpr (List.ne_nil_of_mem this)

/-- Mapping by a function that does not change any element's `p`-status
preserves the length of the `p`-filter. -/
theorem length_filter_map_of_pred_invariant {α : Type} {p : α → Bool} {f : α → α}
    (hf : ∀ x, p (f x) = p x) (l : List α) :
    ((l.map f).filter p).length = (l.filter p).length := by
  induction l with
  | nil => rfl
  | cons a l ih =>
      by_cases h : p a = true
      · simp [List.filter, hf a, h, ih]
      · simp only [Bool.not_eq_true] at h
        simp [List.filter, hf a, h, ih]

/-- Updating `strength`/`metadata` leaves every triple-match status
unchanged, for every probe triple. -/
theorem tripleMatches_update_invariant (a b t a2 b2 t2 : String) (st : Rat)
    (md : Option String) :
    ∀ r : MemoryRelation,
      MemoryManager.tripleMatches a2 b2 t2
        (if MemoryManager.tripleMatches a b t r
          then { r with strength := st, metadata := md } else r) =
      MemoryManager.tripleMatches a2 b2 t2 r := by
  intro r
  by_cases h : MemoryManager.tripleMatches a b t r = true
  · simp only [h, if_true]
    simp [MemoryManager.tripleMatches]
  · simp only [Bool.not_eq_true] at h
    simp [h]

/-- `linkUpsert` never changes the count of a triple other than the one
being linked, and leaves the linked triple's count at exactly one
whenever the store satisfied the uniqueness invariant. -/
theorem countTriple_linkUpsert_self (now : Nat) (a b t : String) (st : Rat)
    (md : Option String) (rels : List MemoryRelation)
    (hu : MemoryManager.tripleUnique rels) :
    MemoryManager.countTriple (MemoryManager.linkUpsert now a b t st md rels) a b t = 1 := by
  unfold MemoryManager.linkUpsert MemoryManager.countTriple
  by_cases h : rels.any (MemoryManager.tripleMatches a b t) = true
  · rw [if_pos h]
    rw [length_filter_map_of_pred_invariant (tripleMatches_update_invariant a b t a b t st md)]
    have h1 := one_le_length_filter_of_any_true h
    have h2 := hu a b t
    unfold MemoryManager.countTriple at h2
    omega
  · simp only [Bool.not_eq_true] at h
    rw [if_neg (by simp [h])]
    rw [List.filter_append, List.length_append, filter_eq_nil_of_any_false h]
    simp [MemoryManager.tripleMatches]

/-- `linkUpsert` preserves the triple-uniqueness invariant. -/
theorem tripleUnique_linkUpsert (now : Nat) (a b t : String) (st : Rat)
    (md : Option String) (rels : List MemoryRelation)
    (hu : MemoryManager.tripleUnique rels) :
    MemoryManager.tripleUnique (MemoryManager.linkUpsert now a b t st md rels) := by
  intro a2 b2 t2
  unfold MemoryManager.linkUpsert MemoryManager.countTriple
  by_cases h : rels.any (MemoryManager.tripleMatches a b t) = true
  · rw [if_pos h]
    rw [length_filter_map_of_pred_invariant (tripleMatches_update_invariant a b t a2 b2 t2 st md)]
    exact hu a2 b2 t2
  · simp only [Bool.not_eq_true] at h
    rw [if_neg (by simp [h])]
    rw [List.filter_append, List.length_append]
    by_cases hm : MemoryManager.tripleMatches a2 b2 t2
        { sourceKey := a, targetKey := b, relationType := t, strength := st,
          metadata := md, timestamp := now } = true
    · have habt : (a = a2 ∧ b = b2) ∧ t = t2 := by
        simpa [MemoryManager.tripleMatches] using hm
      obtain ⟨⟨ha, hb⟩, ht⟩ := habt
      subst ha; subst hb; subst ht
      rw [filter_eq_nil_of_any_false h]
      simp [hm]
    · simp only [Bool.not_eq_true] at hm
      have h2 := hu a2 b2 t2
      unfold MemoryManager.countTriple at h2
      simp [List.filter, hm]
      omega

/-- Claim C2: edge-triple uniqueness is an invariant of the relation
store — every successful `link` preserves "at most one edge per
`(sourceKey, targetKey, relationType)` triple" — and linking the same
`(a, b, related_to)` pair twice (with syntactically nonempty keys)
succeeds and leaves exactly one such edge. -/
theorem link_triple_unique :
    (∀ (now : Nat) (a b t : String) (st : Rat) (md : Option String)
        (rels rels2 : List MemoryRelation),
      MemoryManager.tripleUnique rels →
      MemoryManager.link now a b t st md rels = Except.ok rels2 →
      MemoryManager.tripleUnique rels2) ∧
    (∀ (n1 n2 : Nat) (a b : String) (rels : List MemoryRelation),
      a.isEmpty = false → b.isEmpty = false →
      MemoryManager.tripleUnique rels →
      ∃ rels1 rels2,
        MemoryManager.link n1 a b "related_to" 1 none rels = Except.ok rels1 ∧
        MemoryManager.link n2 a b "related_to" 1 none rels1 = Except.ok rels2 ∧
        MemoryManager.countTriple rels2 a b "related_to" = 1) := by
  constructor
  · intro now a b t st md rels rels2 hu hok
    unfold MemoryManager.link at hok
    by_cases hab : (a.isEmpty || b.isEmpty) = true
    · rw [if_pos hab] at hok
      exact absurd hok (by simp)
    · rw [if_neg hab] at hok
      injection hok with h2
      subst h2
      exact tripleUnique_linkUpsert now a b t st md rels hu
  · intro n1 n2 a b rels ha hb hu
    have hab : (a.isEmpty || b.isEmpty) = false := by simp [ha, hb]
    refine ⟨MemoryManager.linkUpsert n1 a b "related_to" 1 none rels,
      MemoryManager.linkUpsert n2 a b "related_to" 1 none
        (MemoryManager.linkUpsert n1 a b "related_to" 1 none rels), ?_, ?_, ?_⟩
    · unfold MemoryManager.link
      rw [if_neg (by simp [hab])]
    · unfold MemoryManager.link
      rw [if_neg (by simp [hab])]
    · exact countTriple_linkUpsert_self n2 a b "related_to" 1 none _
        (tripleUnique_linkUpsert n1 a b "related_to" 1 none rels hu)

/-- The empty relation store trivially satisfies triple uniqueness. -/
theorem tripleUnique_nil : MemoryManager.tripleUnique [] := by
  intro a b t
  simp [MemoryManager.countTriple]

/-- A concrete instance of the C2 theorem: linking `x -> y` twice with
type `related_to` starting from the empty store leaves exactly one such
edge. -/
theorem link_triple_unique_witness :
    "x".isEmpty = false ∧ "y".isEmpty = false ∧ MemoryManager.tripleUnique [] ∧
    ∃ rels1 rels2,
      MemoryManager.link 0 "x" "y" "related_to" 1 none [] = Except.ok rels1 ∧
      MemoryManager.link 1 "x" "y" "related_to" 1 none rels1 = Except.ok rels2 ∧
      MemoryManager.countTriple rels2 "x" "y" "related_to" = 1 :=
  ⟨rfl, rfl, tripleUnique_nil,
    link_triple_unique.2 0 1 "x" "y" [] rfl rfl tripleUnique_nil⟩

namespace MemoryManager

/-- Modelled from the spec: the neighbor view a traversal step uses —
both directions are considered (outgoing targets and incoming sources
of the probed key). -/
def neighbors (rels : List MemoryRelation) (k : String) : List String :=
  rels.filterMap (fun r => if r.sourceKey == k then some r.targetKey else none) ++
  rels.filterMap (fun r => if r.targetKey == k then some r.sourceKey else none)

/-- Modelled from the spec: the level-by-level worklist loop of the
bounded BFS traversal.  Each iteration expands the frontier by one hop,
keeps only keys not yet visited, and decrements the remaining depth;
the loop stops when the depth budget is exhausted. -/
def bfsAux (rels : List MemoryRelation) : Nat → List String → List String → List String
  | 0, visited, _ => visited
  | d + 1, visited, frontier =>
    let next := ((frontier.flatMap (neighbors rels)).filter
      (fun k => !(visited.contains k))).dedup
    bfsAux rels d (visited ++ next) next

/-- Modelled from the spec: `MemoryManager.traverse` (implementation not
among the available sources) — breadth-first traversal from `root`,
visiting each key at most once, bounded by `maxDepth` hops. -/
def traverse (rels : List MemoryRelation) (root : String) (maxDepth : Nat) : List String :=
  bfsAux rels maxDepth [root] [root]

end MemoryManager

/-- Reachability within a bounded number of hops of `root` along the
undirected neighbor view of the relation list. -/
inductive WithinHops (rels : List MemoryRelation) (root : String) : Nat → String → Prop
  | refl (d : Nat) : WithinHops rels root d root
  | step (d : Nat) (k k2 : String) (hk : WithinHops rels root d k)
      (hn : k2 ∈ MemoryManager.neighbors rels k) : WithinHops rels root (d + 1) k2

/-- Hop bounds are monotone: anything within `d` hops is within `d + 1`. -/
theorem WithinHops.succ {rels : List MemoryRelation} {root : String} {d : Nat} {k : String}
    (h : WithinHops rels root d k) : WithinHops rels root (d + 1) k := by
  induction h with
  | refl d => exact WithinHops.refl (d + 1)
  | step d k k2 hk hn ih => exact WithinHops.step (d + 1) k k2 ih hn

/-- Loop invariant of the BFS worklist: if every visited and frontier
key is within `m` hops, then after `d` further iterations every
returned key is within `m + d` hops. -/
theorem bfsAux_within (rels : List MemoryRelation) (root : String) :
    ∀ (d m : Nat) (visited frontier : List String),
      (∀ v ∈ visited, WithinHops rels root m v) →
      (∀ f ∈ frontier, WithinHops rels root m f) →
      ∀ k ∈ MemoryManager.bfsAux rels d visited frontier, WithinHops rels root (m + d) k := by
  intro d
  induction d with
  | zero =>
      intro m visited frontier hv _ k hk
      exact hv k hk
  | succ d ih =>
      intro m visited frontier hv hf k hk
      unfold MemoryManager.bfsAux at hk
      have hnext : ∀ x ∈ ((frontier.flatMap (MemoryManager.neighbors rels)).filter
          (fun k => !(visited.contains k))).dedup, WithinHops rels root (m + 1) x := by
        intro x hx
        rw [List.mem_dedup, List.mem_filter] at hx
        rcases List.mem_flatMap.mp hx.1 with ⟨f, hfmem, hxn⟩
        exact WithinHops.step m f x (hf f hfmem) hxn
      have hv2 : ∀ v ∈ visited ++ ((frontier.flatMap (MemoryManager.neighbors rels)).filter
          (fun k => !(visited.contains k))).dedup, WithinHops rels root (m + 1) v := by
        intro v hvmem
        rcases List.mem_append.mp hvmem with h1 | h2
        · exact (hv v h1).succ
        · exact hnext v h2
      have := ih (m + 1) _ _ hv2 hnext k hk
      have harith : m + 1 + d = m + (d + 1) := by omega
      rwa [harith] at this

/-- The two-edge chain `a --related_to--> b --depends_on--> c` used by
the spec's depth-bound scenario. -/
def chainRels : List MemoryRelation :=
  [{ sourceKey := "a", targetKey := "b", relationType := "related_to", strength := 1,
     metadata := none, timestamp := 0 },
   { sourceKey := "b", targetKey := "c", relationType := "depends_on", strength := 1,
     metadata := none, timestamp := 1 }]

/-- Claim C4: traversal depth is a hard bound — every key produced by
`traverse root d` lies within `d` hops of `root`; in particular, on the
chain `a -> b -> c`, `traverse a 1` yields exactly `{a, b}` and
excludes `c`. -/
theorem traverse_depth_bound :
    (∀ (rels : List MemoryRelation) (root : String) (d : Nat) (k : String),
      k ∈ MemoryManager.traverse rels root d → WithinHops rels root d k) ∧
    (MemoryManager.traverse chainRels "a" 1 = ["a", "b"] ∧
      "c" ∉ MemoryManager.traverse chainRels "a" 1) := by
  constructor
  · intro rels root d k hk
    have hroot : ∀ v ∈ ([root] : List String), WithinHops rels root 0 v := by
      intro v hv
      rcases List.mem_singleton.mp hv with rfl
      exact WithinHops.refl 0
    have := bfsAux_within rels root d 0 [root] [root] hroot hroot k hk
    simpa using this
  · constructor
    · rfl
    · decide

/-- A concrete instance of the C4 theorem: the key `b` returned by
`traverse a 1` on the chain is within one hop of `a`. -/
theorem traverse_depth_bound_witness :
    WithinHops chainRels "a" 1 "b" :=
  traverse_depth_bound.1 chainRels "a" 1 "b" (by decide)

/-- One item of an MCP tool result's `content` array. -/
structure ContentItem where
  type : String
  text : String
deriving DecidableEq, Repr

/-- The `ToolResult` shape every tool handler returns. -/
structure ToolResult where
  content : List ContentItem
deriving DecidableEq, Repr

/-- Arguments of the `recall_memory` tool (`key` required, `category`
optional per its declared input schema). -/
structure RecallArgs where
  key : String
  category : Option String
deriving DecidableEq, Repr

/-- The hit rendering of `recallMemory.ts`. -/
def foundText (m : MemoryRecord) : String :=
  m.key ++ ": " ++ m.value ++ "\n[" ++ m.category ++ "]"

/-- The miss rendering of `recallMemory.ts`. -/
def notFoundText (k : String) : String :=
  "✗ Not found: \"" ++ k ++ "\""

/-- The catch-branch rendering of `recallMemory.ts` for storage faults. -/
def errorText (msg : String) : String :=
  "✗ Error: " ++ msg

/-- Embedding of `recallMemory` from `src/tools/memory/recallMemory.ts`.
The underlying `memoryManager.recall` call is abstracted by `recallFn`,
whose thrown exceptions are modelled as `Except.error`; the handler's
`try`/`catch` is the total match below, so no exception escapes — every
outcome is rendered as a `ToolResult`. -/
def recallMemory (recallFn : String → Except String (Option MemoryRecord))
    (args : RecallArgs) : ToolResult :=
  match recallFn args.key with
  | Except.ok (some m) => { content := [{ type := "text", text := foundText m }] }
  | Except.ok none => { content := [{ type := "text", text := notFoundText args.key }] }
  | Except.error e => { content := [{ type := "text", text := errorText e }] }

/-- Claim C3: recall of an absent key is a non-exceptional distinguished
result — `recallMemory` always returns a `ToolResult` (it is a total
function; the underlying storage call's exception channel is eliminated
by its `try`/`catch`); a miss yields the "not found" rendering of the
key, a storage-layer fault yields the distinct "internal error"
rendering, and a hit yields the record rendering. -/
theorem recallMemory_error_handling
    (recallFn : String → Except String (Option MemoryRecord)) (args : RecallArgs) :
    (recallFn args.key = Except.ok none →
      recallMemory recallFn args =
        { content := [{ type := "text", text := notFoundText args.key }] }) ∧
    (∀ e, recallFn args.key = Except.error e →
      recallMemory recallFn args =
        { content := [{ type := "text", text := errorText e }] }) ∧
    (∀ m, recallFn args.key = Except.ok (some m) →
      recallMemory recallFn args =
        { content := [{ type := "text", text := foundText m }] }) := by
  refine ⟨?_, ?_, ?_⟩
  · intro h
    unfold recallMemory
    rw [h]
  · intro e h
    unfold recallMemory
    rw [h]
  · intro m h
    unfold recallMemory
    rw [h]

/-- A concrete instance of the C3 theorem: recalling the key `k` against
a store with no records renders the not-found message. -/
theorem recallMemory_error_handling_witness :
    recallMemory (fun _ => Except.ok none) { key := "k", category := none } =
      { content := [{ type := "text", text := notFoundText "k" }] } :=
  (recallMemory_error_handling (fun _ => Except.ok none)
    { key := "k", category := none }).1 rfl

/-- Claim C9: `recallMemory` never reads its optional `category`
argument — two calls that differ only in `category` (present, absent or
different values) return identical results. -/
theorem recallMemory_ignores_category
    (recallFn : String → Except String (Option MemoryRecord)) (k : String)
    (c1 c2 : Option String) :
    recallMemory recallFn { key := k, category := c1 } =
      recallMemory recallFn { key := k, category := c2 } := rfl

/-- Arguments of the `save_memory` tool (`key` and `value` required,
`category` optional). -/
structure SaveArgs where
  key : String
  value : String
  category : Option String
deriving DecidableEq, Repr

/-- The category enumeration declared in `saveMemoryDefinition`'s
`inputSchema` in `src/tools/memory/saveMemory.ts`. -/
def saveMemoryCategoryEnum : List String :=
  ["project", "personal", "code", "notes"]

/-- The category `saveMemory` passes to `memoryManager.save`: the
`category` argument when present, the default `'general'` when omitted
(`const { category = 'general' } = args`). -/
def saveMemoryStoredCategory (args : SaveArgs) : String :=
  args.category.getD "general"

/-- Embedding of `saveMemory` from `src/tools/memory/saveMemory.ts`: it
saves under the defaulted category and renders a confirmation. -/
def saveMemory (now : Nat) (store : List MemoryRecord) (args : SaveArgs) :
    ToolResult × List MemoryRecord :=
  let category := saveMemoryStoredCategory args
  ({ content := [{ type := "text",
                   text := "✓ Saved: " ++ args.key ++ "\nCategory: " ++ category }] },
   MemoryManager.save now args.key args.value category store)

/-- Claim C6 fails on the code: at the concrete failing input — a
`save_memory` call with `category` omitted — the handler passes the
default `'general'` to the store, and `'general'` is not a member of
the enumeration declared in `saveMemoryDefinition`'s `inputSchema`.
The stored record's category is likewise `'general'`. -/
theorem saveMemory_default_category_outside_schema :
    saveMemoryStoredCategory { key := "k", value := "v", category := none } = "general" ∧
    "general" ∉ saveMemoryCategoryEnum ∧
    (saveMemory 0 [] { key := "k", value := "v", category := none }).2 =
      [{ key := "k", value := "v", category := "general", timestamp := 0,
         lastAccessed := 0, priority := 0 }] := by
  refine ⟨rfl, by decide, ?_⟩
  decide

/-- The `name` fields of the definitions listed, in order, in the
`tools` array of `index.ts`.  Names of definitions whose tool files are
among the available sources (`save_memory`, `recall_memory`,
`enhance_prompt`, `enhance_prompt_gemini`, `apply_reasoning_framework`,
`get_usage_analytics`) are taken from those files; the rest are
modelled from the spec and the repository's own registry comments and
capability listing, which enumerate all 35 tool names. -/
def toolsArrayNames : List String :=
  ["get_current_time", "preview_ui_ascii",
   "save_memory", "recall_memory", "update_memory", "delete_memory",
   "list_memories", "prioritize_memory",
   "link_memories", "get_memory_graph", "search_memories_advanced",
   "create_memory_timeline",
   "get_session_context",
   "find_symbol", "find_references",
   "analyze_dependency_graph",
   "get_coding_guide", "apply_quality_rules", "validate_code_quality",
   "analyze_complexity", "check_coupling_cohesion", "suggest_improvements",
   "create_thinking_chain", "analyze_problem", "step_by_step_analysis",
   "format_as_plan", "generate_prd", "create_user_stories",
   "analyze_requirements", "feature_roadmap",
   "enhance_prompt", "analyze_prompt", "enhance_prompt_gemini",
   "apply_reasoning_framework",
   "get_usage_analytics"]

/-- The `toolHandlers` record of `index.ts`: each tool name mapped to
the identifier of the handler function it dispatches to. -/
def toolHandlers : List (String × String) :=
  [("get_current_time", "getCurrentTime"), ("preview_ui_ascii", "previewUiAscii"),
   ("save_memory", "saveMemory"), ("recall_memory", "recallMemory"),
   ("update_memory", "updateMemory"), ("delete_memory", "deleteMemory"),
   ("list_memories", "listMemories"), ("prioritize_memory", "prioritizeMemory"),
   ("link_memories", "linkMemories"), ("get_memory_graph", "getMemoryGraph"),
   ("search_memories_advanced", "searchMemoriesAdvanced"),
   ("create_memory_timeline", "createMemoryTimeline"),
   ("get_session_context", "getSessionContext"),
   ("find_symbol", "findSymbol"), ("find_references", "findReferences"),
   ("analyze_dependency_graph", "analyzeDependencyGraph"),
   ("get_coding_guide", "getCodingGuide"), ("apply_quality_rules", "applyQualityRules"),
   ("validate_code_quality", "validateCodeQuality"),
   ("analyze_complexity", "analyzeComplexity"),
   ("check_coupling_cohesion", "checkCouplingCohesion"),
   ("suggest_improvements", "suggestImprovements"),
   ("create_thinking_chain", "createThinkingChain"),
   ("analyze_problem", "analyzeProblem"),
   ("step_by_step_analysis", "stepByStepAnalysis"),
   ("format_as_plan", "formatAsPlan"), ("generate_prd", "generatePrd"),
   ("create_user_stories", "createUserStories"),
   ("analyze_requirements", "analyzeRequirements"),
   ("feature_roadmap", "featureRoadmap"),
   ("enhance_prompt", "enhancePrompt"), ("analyze_prompt", "analyzePrompt"),
   ("enhance_prompt_gemini", "enhancePromptGemini"),
   ("apply_reasoning_framework", "applyReasoningFramework"),
   ("get_usage_analytics", "getUsageAnalytics")]

/-- The registered tool names: the key set of `toolHandlers`. -/
def toolHandlerNames : List String := toolHandlers.map Prod.fst

/-- The property names a plain JavaScript object literal inherits from
`Object.prototype`: `toolHandlers` is an object literal, so the
property access `toolHandlers[name]` also hits these and yields a
truthy value (a function, or `Object.prototype` itself for
`__proto__`) rather than `undefined`. -/
def objectPrototypeProps : List String :=
  ["constructor", "hasOwnProperty", "isPrototypeOf", "propertyIsEnumerable",
   "toLocaleString", "toString", "valueOf", "__proto__",
   "__defineGetter__", "__defineSetter__", "__lookupGetter__", "__lookupSetter__"]

/-- Result of the property access `toolHandlers[name]`: an own
(registered) handler, a truthy value inherited from
`Object.prototype`, or `undefined` — the only falsy case, since every
inherited member is a function or an object. -/
inductive PropertyLookup where
  | ownHandler (handlerName : String)
  | inherited (propName : String)
  | undef
deriving DecidableEq, Repr

/-- The lookup `toolHandlers[name]` performed by the CallTool handler,
including the prototype chain of the object literal: own keys are
checked first, then the `Object.prototype` members, and only a name
matching neither yields `undefined`. -/
def lookupToolHandler (name : String) : PropertyLookup :=
  match toolHandlers.find? (fun p => p.1 == name) with
  | some p => PropertyLookup.ownHandler p.2
  | none =>
    if name ∈ objectPrototypeProps then PropertyLookup.inherited name
    else PropertyLookup.undef

/-- Outcome of one CallTool request in `createServer`'s request
handler: the registered handler is invoked; or a truthy inherited
`Object.prototype` member passes the `if (!handler)` guard and is
invoked in the handler's place (returning a bogus value, or throwing a
`TypeError` that the catch wraps as `InternalError` when the member is
not callable, as for `__proto__`); or `McpError(MethodNotFound)` is
thrown. -/
inductive CallToolOutcome where
  | invoked (handlerName : String)
  | inheritedInvoked (propName : String)
  | methodNotFound
deriving DecidableEq, Repr

/-- Embedding of the CallTool request handler of `index.ts`: look the
name up in `toolHandlers` (an object literal, so the lookup includes
inherited `Object.prototype` members); throw `MethodNotFound` only
when the access yields falsy `undefined`, and otherwise invoke
whatever the access produced. -/
def callToolDispatch (name : String) : CallToolOutcome :=
  match lookupToolHandler name with
  | PropertyLookup.ownHandler h => CallToolOutcome.invoked h
  | PropertyLookup.inherited p => CallToolOutcome.inheritedInvoked p
  | PropertyLookup.undef => CallToolOutcome.methodNotFound

/-- An association-list `find?` on the first components fails exactly
when the probed key is not among the keys. -/
theorem find?_assoc_eq_none_iff_not_mem (l : List (String × String)) (name : String) :
    (l.find? (fun p => p.1 == name) = none ↔ name ∉ l.map Prod.fst) := by
  induction l with
  | nil => simp
  | cons p l ih =>
      by_cases h : p.1 = name
      · simp [List.find?, h]
      · have hb : (p.1 == name) = false := by simpa using h
        simp only [List.find?, hb, List.map_cons, List.mem_cons]
        rw [ih]
        constructor
        · intro h1 h2
          rcases h2 with h2 | h2
          · exact h (h2.symm)
          · exact h1 h2
        · intro h1 h2
          exact h1 (Or.inr h2)

/-- The property access yields `undefined` exactly for names that are
neither registered keys nor inherited `Object.prototype` members. -/
theorem lookupToolHandler_undef_iff (name : String) :
    lookupToolHandler name = PropertyLookup.undef ↔
      name ∉ toolHandlerNames ∧ name ∉ objectPrototypeProps := by
  unfold lookupToolHandler
  cases hf : toolHandlers.find? (fun p => p.1 == name) with
  | none =>
      simp only [hf]
      by_cases hp : name ∈ objectPrototypeProps
      · rw [if_pos hp]
        constructor
        · intro hcontra
          exact absurd hcontra (by simp)
        · intro hand
          exact absurd hp hand.2
      · rw [if_neg hp]
        constructor
        · intro _
          exact ⟨(find?_assoc_eq_none_iff_not_mem toolHandlers name).mp hf, hp⟩
        · intro _
          rfl
  | some p =>
      simp only [hf]
      constructor
      · intro hcontra
        exact absurd hcontra (by simp)
      · intro hand
        have h0 : toolHandlers.find? (fun q => q.1 == name) = none :=
          (find?_assoc_eq_none_iff_not_mem toolHandlers name).mpr hand.1
        rw [hf] at h0
        exact absurd h0 (by simp)

/-- The dispatcher throws `MethodNotFound` exactly when the property
access yields `undefined`. -/
theorem callToolDispatch_methodNotFound_iff (name : String) :
    callToolDispatch name = CallToolOutcome.methodNotFound ↔
      lookupToolHandler name = PropertyLookup.undef := by
  unfold callToolDispatch
  cases hl : lookupToolHandler name <;> simp [hl]

/-- Claim C8 fails on the code: at the concrete request name
`toString`, which is not a key of `toolHandlers`, the property access
`toolHandlers["toString"]` yields the truthy inherited
`Object.prototype.toString`, so the `if (!handler)` guard does not
fire and the dispatcher invokes that function instead of throwing
`McpError(MethodNotFound)` — refuting the claim's biconditional. -/
theorem tool_dispatch_prototype_counterexample :
    "toString" ∉ toolHandlerNames ∧
    callToolDispatch "toString" = CallToolOutcome.inheritedInvoked "toString" ∧
    callToolDispatch "toString" ≠ CallToolOutcome.methodNotFound := by
  refine ⟨by decide, by decide, by decide⟩

/-- Claim C8 as amended: the key set of `toolHandlers` equals the set
of `name`s of the definitions in the `tools` array, and a CallTool
request throws `McpError(MethodNotFound)` exactly when the requested
name is neither in that set nor a property name inherited from
`Object.prototype` (for such inherited names the truthy inherited
member is invoked in the handler's place); for every registered name
the registered handler is invoked. -/
theorem tool_dispatch_total_amended :
    (∀ n, n ∈ toolsArrayNames ↔ n ∈ toolHandlerNames) ∧
    (∀ name, (callToolDispatch name = CallToolOutcome.methodNotFound ↔
        (name ∉ toolHandlerNames ∧ name ∉ objectPrototypeProps)) ∧
      (∀ h, lookupToolHandler name = PropertyLookup.ownHandler h →
        callToolDispatch name = CallToolOutcome.invoked h)) := by
  constructor
  · have h1 : ∀ n ∈ toolsArrayNames, n ∈ toolHandlerNames := by decide
    have h2 : ∀ n ∈ toolHandlerNames, n ∈ toolsArrayNames := by decide
    intro n
    exact ⟨h1 n, h2 n⟩
  · intro name
    constructor
    · exact (callToolDispatch_methodNotFound_iff name).trans
        (lookupToolHandler_undef_iff name)
    · intro h hl
      unfold callToolDispatch
      rw [hl]

/-- A concrete instance of the amended C8 theorem: the request name
`save_memory` is dispatched to the registered `saveMemory` handler. -/
theorem tool_dispatch_total_amended_witness :
    callToolDispatch "save_memory" = CallToolOutcome.invoked "saveMemory" :=
  (tool_dispatch_total_amended.2 "save_memory").2 "saveMemory" rfl

/-- A session configuration value as described by `configSchema` in
`index.ts`: `maxMemories` (a number the schema constrains to the range
`[10, 1000]`, default `100`) and `enableGraph` (default `true`). -/
structure SmitheryConfig where
  maxMemories : Nat
  enableGraph : Bool
deriving DecidableEq, Repr

/-- A configuration value is accepted by `configSchema` when its
`maxMemories` lies in the declared `[10, 1000]` range. -/
def configAccepted (c : SmitheryConfig) : Prop :=
  10 ≤ c.maxMemories ∧ c.maxMemories ≤ 1000

/-- The observable surface of the server `createServer` builds: its
identity and the tool registry and dispatcher wired into its request
handlers. -/
structure McpServerModel where
  name : String
  version : String
  toolNames : List String
  dispatch : String → CallToolOutcome

/-- Embedding of `createServer` from `index.ts`: a fixed server wired
to the `tools` array and the `toolHandlers` dispatcher. -/
def createServer : McpServerModel :=
  { name := "Op-AI", version := "3.0.0", toolNames := toolsArrayNames,
    dispatch := callToolDispatch }

/-- Embedding of the default (Smithery) export of `index.ts`: it
receives `sessionId` and the optional session `config`, discards both
(`void sessionId; void config`) and returns `createServer()`. -/
def smitheryDefaultExport (sessionId : String) (config : Option SmitheryConfig) :
    McpServerModel :=
  createServer

/-- Claim C7: the `maxMemories` configuration ceiling is advisory only —
for any two schema-accepted configurations (or absent configuration) and
any session ids, the default export produces the identical server; the
configuration has no effect on any operation. -/
theorem config_has_no_effect (s1 s2 : String) (c1 c2 : SmitheryConfig)
    (h1 : configAccepted c1) (h2 : configAccepted c2) :
    smitheryDefaultExport s1 (some c1) = smitheryDefaultExport s2 (some c2) ∧
    smitheryDefaultExport s1 (some c1) = smitheryDefaultExport s2 none := by
  exact ⟨rfl, rfl⟩

/-- A concrete instance of the C7 theorem: two sessions whose accepted
configurations disagree on `maxMemories` and `enableGraph` get the same
server. -/
theorem config_has_no_effect_witness :
    smitheryDefaultExport "session-1"
        (some { maxMemories := 10, enableGraph := true }) =
      smitheryDefaultExport "session-2"
        (some { maxMemories := 1000, enableGraph := false }) :=
  (config_has_no_effect "session-1" "session-2"
    { maxMemories := 10, enableGraph := true }
    { maxMemories := 1000, enableGraph := false }
    ⟨by decide, by decide⟩ ⟨by decide, by decide⟩).1

/-- The derived knowledge-graph view consumed by the analytics report:
node keys, the relation set restricted to them, and the clusters. -/
structure MemoryGraph where
  nodes : List String
  edges : List MemoryRelation
  clusters : List (List String)

/-- The figures computed by `generateGraphStats` in the usage-analytics
tool: the three counts it always prints and the average-connections
figure `edges.length * 2 / nodes.length`, which the source computes
only inside its `if (graph.edges.length > 0)` block — modelled as
`none` when that guard is false. -/
structure GraphStatsFigures where
  nodeCount : Nat
  edgeCount : Nat
  clusterCount : Nat
  avgConnections : Option Rat
deriving DecidableEq, Repr

/-- Embedding of the numeric core of `generateGraphStats` from the
usage-analytics tool. -/
def generateGraphStats (g : MemoryGraph) : GraphStatsFigures :=
  { nodeCount := g.nodes.length,
    edgeCount := g.edges.length,
    clusterCount := g.clusters.length,
    avgConnections :=
      if 0 < g.edges.length then
        some (((g.edges.length : Rat) * 2) / (g.nodes.length : Rat))
      else none }

/-- Claim C10: the average-connections computation never divides by
zero — for every graph whose edges' endpoints all appear in `nodes`,
whenever `generateGraphStats` evaluates the quotient (it does so
exactly when `edges` is nonempty), `nodes` is nonempty. -/
theorem generateGraphStats_no_div_by_zero (g : MemoryGraph)
    (hwf : ∀ e ∈ g.edges, e.sourceKey ∈ g.nodes ∧ e.targetKey ∈ g.nodes) :
    ∀ q, (generateGraphStats g).avgConnections = some q → 0 < g.nodes.length := by
  intro q hq
  by_cases h : 0 < g.edges.length
  · have hne : g.edges ≠ [] := by
      intro hnil
      rw [hnil] at h
      simp at h
    obtain ⟨e, hmem⟩ := List.exists_mem_of_ne_nil _ hne
    exact List.length_pos.mpr (List.ne_nil_of_mem (hwf e hmem).1)
  · unfold generateGraphStats at hq
    rw [if_neg h] at hq
    exact absurd hq (by simp)

/-- The one-edge graph used to instantiate the C10 theorem. -/
def oneEdgeGraph : MemoryGraph :=
  { nodes := ["x", "y"],
    edges := [{ sourceKey := "x", targetKey := "y", relationType := "related_to",
                strength := 1, metadata := none, timestamp := 0 }],
    clusters := [["x", "y"]] }

/-- A concrete instance of the C10 theorem: a one-edge graph whose two
endpoints are its nodes has a positive node count when the average is
computed. -/
theorem generateGraphStats_no_div_by_zero_witness :
    0 < oneEdgeGraph.nodes.length :=
  generateGraphStats_no_div_by_zero oneEdgeGraph (by decide)
    ((((1 : Nat) : Rat) * 2) / (((2 : Nat) : Rat))) rfl
